import Mathlib

/-!
# pyFileSync — verification of the synchronization engine

A shallow embedding of the pyFileSync repository (files `utils.py`, `api.py`,
`main.py`) together with proofs about the diff algorithm, the remote list
codec, the local scanner, the reload operation and the orchestration cycle.

Modelling conventions:
* Python `dict[str, ...]` values are embedded as association lists with
  last-write-wins insertion (`insertS`); each builder in the source inserts
  entries one by one, exactly as the Python loops do.
* Timestamps are embedded as `Int` values: seconds since the epoch in UTC.
  Both sides of the comparison carry whole seconds — the local scanner
  truncates `st_mtime` microseconds (`.replace(microsecond=0)`), and the
  remote codec parses the wire format `"%a, %d %b %Y %H:%M:%S GMT"`, which
  has second granularity.  Local modification times are carried as integer
  microsecond counts and truncated by flooring division, which is what
  zeroing the microsecond field of a UTC datetime does.
* The XML layer is embedded post-tokenisation: an `XmlEntry` is one
  `response/propstat/prop` element, carrying its `displayname` text, the
  optional numeric `getcontentlength` text, and the `getlastmodified`
  value already parsed from the fixed wire format into a UTC timestamp.
  A body that `ET.fromstring` rejects (for example an empty body) is the
  `none` case of `Option (List XmlEntry)`.
* `sys.exit(1)` inside the low-level request primitive is embedded as a
  distinguished result constructor; uncaught Python exceptions are
  embedded as `Except` errors.
-/

/-- Metadata recorded for one file: `{"last_modified": ..., "size": ...}`
as built by both `utils.get_info` and `YadiskAPI._make_info_dict`.
`last_modified` is a UTC timestamp in whole seconds. -/
structure FileMeta where
  size : Int
  last_modified : Int
deriving DecidableEq, Repr

/-- A Python `dict[str, FileMeta]` as an insertion sequence;
lookups return the most recent binding (see `insertS`). -/
abbrev Snapshot := List (String × FileMeta)

/-- Python dict assignment `d[k] = v`: any earlier binding of `k` is
replaced, the new binding wins. -/
def insertS (s : Snapshot) (k : String) (v : FileMeta) : Snapshot :=
  s.filter (fun p => p.1 != k) ++ [(k, v)]

/-- Python dict lookup `d.get(k)`. -/
def lookupS (s : Snapshot) (k : String) : Option FileMeta :=
  (s.find? (fun p => p.1 == k)).map Prod.snd

/-- The key set `set(d.keys())` of a snapshot. -/
def namesS (s : Snapshot) : Finset String :=
  (s.map Prod.fst).toFinset

theorem lookupS_nil (k : String) : lookupS [] k = none := rfl

theorem lookupS_cons (p : String × FileMeta) (tl : Snapshot) (k : String) :
    lookupS (p :: tl) k = if p.1 = k then some p.2 else lookupS tl k := by
  by_cases h : p.1 = k
  · simp [lookupS, List.find?, beq_iff_eq, h]
  · have hb : (p.1 == k) = false := by simp [beq_iff_eq, h]
    simp [lookupS, List.find?, hb, h]

theorem lookupS_append (s t : Snapshot) (k : String) :
    lookupS (s ++ t) k = (lookupS s k).or (lookupS t k) := by
  unfold lookupS
  rw [List.find?_append]
  cases List.find? (fun p => p.1 == k) s <;> simp

theorem lookupS_filter_bne (s : Snapshot) (k k' : String) :
    lookupS (s.filter (fun p => p.1 != k)) k' =
      if k' = k then none else lookupS s k' := by
  induction s with
  | nil => simp [lookupS]
  | cons p tl ih =>
    rw [List.filter_cons]
    by_cases hpk : p.1 = k
    · have hb : (p.1 != k) = false := by simp [bne_iff_ne, hpk]
      rw [hb]
      simp only [Bool.false_eq_true, if_false]
      rw [ih, lookupS_cons]
      by_cases h : k' = k
      · simp [h]
      · have hp' : p.1 ≠ k' := fun hh => h (hh ▸ hpk)
        simp [h, hp']
    · have hb : (p.1 != k) = true := by simp [bne_iff_ne, hpk]
      rw [hb]
      simp only [if_true]
      rw [lookupS_cons, lookupS_cons, ih]
      by_cases hpk' : p.1 = k'
      · have h' : k' ≠ k := fun hh => hpk (hpk'.trans hh)
        simp [hpk', h']
      · simp [hpk']

theorem lookupS_insertS (s : Snapshot) (k : String) (v : FileMeta) (k' : String) :
    lookupS (insertS s k v) k' = if k' = k then some v else lookupS s k' := by
  unfold insertS
  rw [lookupS_append, lookupS_filter_bne, lookupS_cons]
  by_cases h : k' = k <;> simp [h, Ne.symm, lookupS, List.find?]

theorem mem_namesS {s : Snapshot} {k : String} :
    k ∈ namesS s ↔ (lookupS s k).isSome := by
  unfold namesS lookupS
  rw [List.mem_toFinset]
  have hmap : (Option.map Prod.snd (List.find? (fun p => p.1 == k) s)).isSome
      = (List.find? (fun p => p.1 == k) s).isSome := by
    cases List.find? (fun p => p.1 == k) s <;> simp
  rw [hmap, List.find?_isSome]
  constructor
  · intro h
    rcases List.mem_map.mp h with ⟨p, hp, hpk⟩
    exact ⟨p, hp, by simp [beq_iff_eq, hpk]⟩
  · rintro ⟨p, hp, hpk⟩
    exact List.mem_map.mpr ⟨p, hp, by simpa [beq_iff_eq] using hpk⟩

theorem lookupS_isSome_iff {s : Snapshot} {k : String} :
    (lookupS s k).isSome ↔ ∃ m, lookupS s k = some m := by
  cases lookupS s k <;> simp

/-! ## Python exceptions and process exit -/

/-- The Python exceptions relevant to the embedded control flow. -/
inductive PyExc where
  /-- Python `AttributeError`, e.g. calling `.keys()` on `None`. -/
  | attributeError
  /-- Python `NotADirectoryError` raised by `utils.get_info`. -/
  | notADirectoryError
deriving DecidableEq, Repr

/-! ## `utils.py` -/

namespace Utils

/-- A node of the local filesystem: a regular file carries its byte size
(`st_size`) and its modification time as an integer count of microseconds
since the epoch, UTC (`st_mtime`); a directory carries its named entries. -/
inductive FsNode where
  | file (size : Int) (mtimeMicros : Int)
  | dir (entries : List (String × FsNode))

/-- Whether a node is a directory (`os.path.isdir`). -/
def FsNode.isDir : FsNode → Bool
  | .file _ _ => false
  | .dir _ => true

/-- Source: `datetime.fromtimestamp(st_mtime, timezone.utc).replace(microsecond=0)`:
zeroing the microsecond field of a UTC datetime floors the timestamp to a
whole second. -/
def truncMicros (mtimeMicros : Int) : Int :=
  Int.fdiv mtimeMicros 1000000

/-- Function `utils.get_info`: raises `NotADirectoryError` when the path is not a
directory; otherwise builds a dict with one entry per regular file, holding
its truncated UTC mtime and its size, skipping sub-directories. -/
def get_info : FsNode → Except PyExc Snapshot
  | .file _ _ => .error .notADirectoryError
  | .dir entries =>
      .ok (entries.foldl
        (fun result p =>
          match p.2 with
          | .dir _ => result
          | .file size mtimeMicros =>
              insertS result p.1 ⟨size, truncMicros mtimeMicros⟩)
        [])

/-- The warnings `utils.get_info` logs: one per sub-directory entry,
carrying that entry's name ("локальный объект ... является папкой"). -/
def get_info_warns : FsNode → List String
  | .file _ _ => []
  | .dir entries =>
      entries.foldl
        (fun warns p =>
          match p.2 with
          | .dir _ => warns ++ [p.1]
          | .file _ _ => warns)
        []

/-- The per-name condition of the `reload` set comprehension in
`utils.compare_cloud_local`:
`cloud[name]["size"] != local[name]["size"] or
 cloud[name]["last_modified"] < local[name]["last_modified"]`.
Indexing a dict at a key of `same_names` always succeeds, so the
catch-all branch is unreachable on the inputs the comprehension uses. -/
def needsReload (cloud locl : Snapshot) (name : String) : Bool :=
  match lookupS cloud name, lookupS locl name with
  | some c, some l => c.size != l.size || decide (c.last_modified < l.last_modified)
  | _, _ => false

/-- The sync plan `{"load": ..., "reload": ..., "delete": ...}`. -/
structure SyncPlan where
  load : Finset String
  reload : Finset String
  delete : Finset String
deriving DecidableEq

/-- Function `utils.compare_cloud_local`: the diff engine. -/
def compare_cloud_local (cloud locl : Snapshot) : SyncPlan :=
  let not_in_cloud := namesS locl \ namesS cloud
  let not_in_local := namesS cloud \ namesS locl
  let same_names := namesS cloud ∩ namesS locl
  let rel := same_names.filter (fun name => needsReload cloud locl name = true)
  { load := not_in_cloud, reload := rel, delete := not_in_local }

/-- Function `utils.compare_cloud_local` as invoked by `main.infinite_sync`, where
the first argument is whatever `yapi.get_info()` returned and may be
`None`: `set(cloud.keys())` then raises `AttributeError`. -/
def compare_cloud_local_dyn (cloud : Option Snapshot) (locl : Snapshot) :
    Except PyExc SyncPlan :=
  match cloud with
  | none => .error .attributeError
  | some c => .ok (compare_cloud_local c locl)

end Utils

/-! ## `api.py` -/

namespace YadiskAPI

/-- One `{DAV:}response/{DAV:}propstat/{DAV:}prop` element of the
multi-status list response, post-tokenisation: the `displayname` text,
the numeric value of the `getcontentlength` text when that tag is
present (`none` marks a folder, whose `.text` access raises the
`AttributeError` the source catches), and the `getlastmodified` text
already parsed from the wire format `"%a, %d %b %Y %H:%M:%S GMT"` into
a UTC timestamp in whole seconds. -/
structure XmlEntry where
  displayname : String
  getcontentlength : Option Int
  getlastmodified : Int
deriving DecidableEq, Repr

/-- Method `YadiskAPI._make_info_dict`: a `none` input stands for a body that
`ET.fromstring` rejects (`ParseError`, e.g. an empty body), in which case
the source logs an error and returns `None`.  Otherwise the first entry
(the collection itself) is dropped, and every remaining entry that has a
content length is recorded under its display name; entries without one
are folders and are skipped. -/
def _make_info_dict : Option (List XmlEntry) → Option Snapshot
  | none => none
  | some entries =>
      some ((entries.drop 1).foldl
        (fun result tag =>
          match tag.getcontentlength with
          | some size => insertS result tag.displayname ⟨size, tag.getlastmodified⟩
          | none => result)
        [])

/-- The warnings `_make_info_dict` logs: one per folder entry after the
first-entry skip, carrying that entry's display name ("объект ... в
облачном хранилище является папкой"). -/
def _make_info_dict_warns : Option (List XmlEntry) → List String
  | none => []
  | some entries =>
      (entries.drop 1).foldl
        (fun warns tag =>
          match tag.getcontentlength with
          | some _ => warns
          | none => warns ++ [tag.displayname])
        []

/-- Outcome of the low-level request primitive `YadiskAPI._request`,
keyed by the HTTP status the server answered with. -/
inductive ReqResult where
  /-- Call `sys.exit(code)` happened: the process terminates. -/
  | exited (code : Nat)
  /-- The `Response` object is returned to the caller. -/
  | resp (status : Nat)
deriving DecidableEq, Repr

/-- Method `YadiskAPI._request`: `raise_for_status` raises `HTTPError` for any
4xx/5xx status; the handler calls `sys.exit(1)` after a critical log for
401 ("Некорректный токен") and for 404 ("Объекта ... не существует"),
and returns the response after logging for every other error status.
Non-error statuses are returned without entering the handler. -/
def _request (status : Nat) : ReqResult :=
  if 400 ≤ status ∧ status < 600 then
    if status = 401 then .exited 1
    else if status = 404 then .exited 1
    else .resp status
  else .resp status

/-- A request the `reload` operation issues against the remote side. -/
inductive Req where
  | del (filename : String)
  | put (filename : String)
deriving DecidableEq, Repr

/-- Result of running `YadiskAPI.reload` against the remote-state model:
the remote snapshot afterwards and the requests issued, with `exited`
marking that `sys.exit(1)` fired inside `_request`. -/
inductive ExecResult where
  | exited (remote : Snapshot) (reqs : List Req)
  | returned (remote : Snapshot) (reqs : List Req)
deriving DecidableEq, Repr

/-- The remote snapshot after the operation. -/
def ExecResult.remote : ExecResult → Snapshot
  | .exited r _ => r
  | .returned r _ => r

/-- The requests issued during the operation. -/
def ExecResult.reqs : ExecResult → List Req
  | .exited _ q => q
  | .returned _ q => q

/-- Python dict deletion of a key, used to model the server removing a
file it acknowledged deleting. -/
def eraseS (s : Snapshot) (k : String) : Snapshot :=
  s.filter (fun p => p.1 != k)

/-- Method `YadiskAPI.reload`: delete the old version, and only if that answered
204 upload the new one.  The server model: a DELETE removes the file
exactly when it answers 204, a PUT stores the file exactly when it
answers 201 (the statuses the source treats as success).  `delStatus`
and `putStatus` are the statuses the server answers with; the PUT is
only ever issued after a 204 DELETE, mirroring the early `return`. -/
def reload (remote : Snapshot) (filename : String) (m : FileMeta)
    (delStatus putStatus : Nat) : ExecResult :=
  match _request delStatus with
  | .exited _ => .exited remote [.del filename]
  | .resp s1 =>
    let remote1 := if s1 = 204 then eraseS remote filename else remote
    if s1 ≠ 204 then .returned remote1 [.del filename]
    else match _request putStatus with
      | .exited _ => .exited remote1 [.del filename, .put filename]
      | .resp s2 =>
          .returned (if s2 = 201 then insertS remote1 filename m else remote1)
            [.del filename, .put filename]

end YadiskAPI

/-! ## Configuration (`utils.get_config` / `utils.raise_for_config`) -/

/-- The `[Yandex]` section of the configuration file as `ConfigParser`
exposes it: each key is absent (`None` fallback) or present with a
string value (possibly empty). -/
structure RawConfig where
  hasYandexSection : Bool
  local_path : Option String
  sync_period : Option String
  log_path : Option String
  token : Option String
  cloud_path : Option String
deriving DecidableEq, Repr

/-- Python truthiness of `config["Yandex"].get(key, fallback=None)`:
falsy when the key is absent or its value is the empty string. -/
def truthy : Option String → Bool
  | none => false
  | some s => !s.isEmpty

/-- Function `utils.raise_for_config`: `KeyError` when the `Yandex` section is
missing, when a required key is missing or empty (checked in source
order), or when `cloud_path` is absent (an empty `cloud_path` is
allowed). -/
def raise_for_config (c : RawConfig) : Except String Unit :=
  if !c.hasYandexSection then .error "Секция Yandex отсутствует"
  else if !truthy c.local_path then .error "local_path"
  else if !truthy c.sync_period then .error "sync_period"
  else if !truthy c.log_path then .error "log_path"
  else if !truthy c.token then .error "token"
  else if c.cloud_path.isNone then .error "cloud_path"
  else .ok ()

/-- Function `main.initialize`, up to the point the sync loop starts: `get_config`
raises `FileNotFoundError` when the file is missing (`none` input), then
`raise_for_config` validates; either exception is logged critically and
the process exits with status 1, otherwise the configuration is used. -/
def initOutcome (cfgFile : Option RawConfig) : Except Nat RawConfig :=
  match cfgFile with
  | none => .error 1
  | some c =>
      match raise_for_config c with
      | .error _ => .error 1
      | .ok _ => .ok c

/-! ## `main.infinite_sync` (one cycle) -/

namespace Main

/-- One remote action the orchestrator executes. -/
inductive Action where
  | delete (filename : String)
  | load (filename : String)
  | reload (filename : String)
deriving DecidableEq, Repr

/-- Execution phase of an action in the loop body: the source iterates
`todo_dict["delete"]`, then `todo_dict["load"]`, then
`todo_dict["reload"]`. -/
def Action.phase : Action → Nat
  | .delete _ => 0
  | .load _ => 1
  | .reload _ => 2

/-- The actions one cycle body issues from a computed plan: the three
`for` loops in source order.  Python set iteration order is arbitrary;
it is modelled by iterating each set in sorted order. -/
def planTrace (todo : Utils.SyncPlan) : List Action :=
  ((todo.delete.sort (· ≤ ·)).foldl (fun acc f => acc ++ [Action.delete f]) [])
    ++ ((todo.load.sort (· ≤ ·)).foldl (fun acc f => acc ++ [Action.load f]) [])
    ++ ((todo.reload.sort (· ≤ ·)).foldl (fun acc f => acc ++ [Action.reload f]) [])

/-- The body of one `while True` iteration of `main.infinite_sync`, given
the parse outcome of the PROPFIND response and the local directory:
`cloud_dict = yapi.get_info()` (which is `_make_info_dict` of the parsed
body), `local_dict = utils.get_info(local_path)`, then
`compare_cloud_local(cloud_dict, local_dict)` and the three action loops.
An uncaught exception anywhere aborts the process: nothing in
`infinite_sync` catches. -/
def sync_cycle (cloudParsed : Option (List YadiskAPI.XmlEntry))
    (localFs : Utils.FsNode) : Except PyExc (List Action) := do
  let cloud_dict := YadiskAPI._make_info_dict cloudParsed
  let local_dict ← Utils.get_info localFs
  let todo_dict ← Utils.compare_cloud_local_dyn cloud_dict local_dict
  pure (planTrace todo_dict)

end Main

/-! ## Diff engine lemmas -/

theorem needsReload_iff {cloud locl : Snapshot} {name : String} {c l : FileMeta}
    (hc : lookupS cloud name = some c) (hl : lookupS locl name = some l) :
    Utils.needsReload cloud locl name = true ↔
      (c.size ≠ l.size ∨ c.last_modified < l.last_modified) := by
  unfold Utils.needsReload
  rw [hc, hl]
  simp [bne_iff_ne]

theorem mem_load_iff (cloud locl : Snapshot) (name : String) :
    name ∈ (Utils.compare_cloud_local cloud locl).load ↔
      (lookupS locl name).isSome ∧ lookupS cloud name = none := by
  unfold Utils.compare_cloud_local
  rw [Finset.mem_sdiff, mem_namesS, mem_namesS, Option.not_isSome_iff_eq_none]

theorem mem_delete_iff (cloud locl : Snapshot) (name : String) :
    name ∈ (Utils.compare_cloud_local cloud locl).delete ↔
      (lookupS cloud name).isSome ∧ lookupS locl name = none := by
  unfold Utils.compare_cloud_local
  rw [Finset.mem_sdiff, mem_namesS, mem_namesS, Option.not_isSome_iff_eq_none]

theorem mem_reload_iff (cloud locl : Snapshot) (name : String) :
    name ∈ (Utils.compare_cloud_local cloud locl).reload ↔
      ∃ c l, lookupS cloud name = some c ∧ lookupS locl name = some l ∧
        (c.size ≠ l.size ∨ c.last_modified < l.last_modified) := by
  unfold Utils.compare_cloud_local
  rw [Finset.mem_filter, Finset.mem_inter, mem_namesS, mem_namesS]
  constructor
  · rintro ⟨⟨hc, hl⟩, hr⟩
    obtain ⟨c, hc⟩ := Option.isSome_iff_exists.mp hc
    obtain ⟨l, hl⟩ := Option.isSome_iff_exists.mp hl
    exact ⟨c, l, hc, hl, (needsReload_iff hc hl).mp hr⟩
  · rintro ⟨c, l, hc, hl, hcond⟩
    exact ⟨⟨by simp [hc], by simp [hl]⟩, (needsReload_iff hc hl).mpr hcond⟩

/-- C1: `compare_cloud_local` returns a plan where `load` is exactly the
names present locally but absent remotely, `delete` exactly the names
present remotely but absent locally, and `reload` exactly the names
present on both sides whose remote size differs from the local size or
whose remote `last_modified` is strictly earlier than the local one;
a name on both sides with equal size and a remote timestamp not earlier
than the local one lands in no set. -/
theorem compare_cloud_local_char (cloud locl : Snapshot) (name : String) :
    (name ∈ (Utils.compare_cloud_local cloud locl).load ↔
       (lookupS locl name).isSome ∧ lookupS cloud name = none)
  ∧ (name ∈ (Utils.compare_cloud_local cloud locl).delete ↔
       (lookupS cloud name).isSome ∧ lookupS locl name = none)
  ∧ (name ∈ (Utils.compare_cloud_local cloud locl).reload ↔
       ∃ c l, lookupS cloud name = some c ∧ lookupS locl name = some l ∧
         (c.size ≠ l.size ∨ c.last_modified < l.last_modified))
  ∧ (∀ c l, lookupS cloud name = some c → lookupS locl name = some l →
       c.size = l.size → ¬ c.last_modified < l.last_modified →
       name ∉ (Utils.compare_cloud_local cloud locl).load ∧
       name ∉ (Utils.compare_cloud_local cloud locl).reload ∧
       name ∉ (Utils.compare_cloud_local cloud locl).delete) := by
  refine ⟨mem_load_iff cloud locl name, mem_delete_iff cloud locl name,
    mem_reload_iff cloud locl name, ?_⟩
  intro c l hc hl hsize hts
  refine ⟨?_, ?_, ?_⟩
  · rw [mem_load_iff]
    rintro ⟨-, hnone⟩
    rw [hc] at hnone
    exact Option.noConfusion hnone
  · rw [mem_reload_iff]
    rintro ⟨c', l', hc', hl', hcond⟩
    rw [hc] at hc'
    rw [hl] at hl'
    cases Option.some.inj hc'
    cases Option.some.inj hl'
    rcases hcond with h | h
    · exact h hsize
    · exact hts h
  · rw [mem_delete_iff]
    rintro ⟨-, hnone⟩
    rw [hl] at hnone
    exact Option.noConfusion hnone

/-- Witness for C1: remote has `a.txt` (size 1, mtime 10) and `c.txt`;
local has `a.txt` with the same size and an older mtime 5, and `b.txt`.
`a.txt` lands in no set, `b.txt` must be loaded, `c.txt` deleted. -/
theorem compare_cloud_local_char_witness :
    "a.txt" ∉ (Utils.compare_cloud_local
        [("a.txt", ⟨1, 10⟩), ("c.txt", ⟨2, 3⟩)]
        [("a.txt", ⟨1, 5⟩), ("b.txt", ⟨4, 6⟩)]).load ∧
    "a.txt" ∉ (Utils.compare_cloud_local
        [("a.txt", ⟨1, 10⟩), ("c.txt", ⟨2, 3⟩)]
        [("a.txt", ⟨1, 5⟩), ("b.txt", ⟨4, 6⟩)]).reload ∧
    "a.txt" ∉ (Utils.compare_cloud_local
        [("a.txt", ⟨1, 10⟩), ("c.txt", ⟨2, 3⟩)]
        [("a.txt", ⟨1, 5⟩), ("b.txt", ⟨4, 6⟩)]).delete :=
  (compare_cloud_local_char
      [("a.txt", ⟨1, 10⟩), ("c.txt", ⟨2, 3⟩)]
      [("a.txt", ⟨1, 5⟩), ("b.txt", ⟨4, 6⟩)] "a.txt").2.2.2
    ⟨1, 10⟩ ⟨1, 5⟩ rfl rfl rfl (by decide)

/-- C4: the three sets of any computed plan are pairwise disjoint and
their union only contains names from one of the two snapshots. -/
theorem compare_cloud_local_plan_shape (cloud locl : Snapshot) :
    Disjoint (Utils.compare_cloud_local cloud locl).load
      (Utils.compare_cloud_local cloud locl).reload
  ∧ Disjoint (Utils.compare_cloud_local cloud locl).load
      (Utils.compare_cloud_local cloud locl).delete
  ∧ Disjoint (Utils.compare_cloud_local cloud locl).reload
      (Utils.compare_cloud_local cloud locl).delete
  ∧ (Utils.compare_cloud_local cloud locl).load
      ∪ (Utils.compare_cloud_local cloud locl).delete
      ∪ (Utils.compare_cloud_local cloud locl).reload
      ⊆ namesS cloud ∪ namesS locl := by
  refine ⟨Finset.disjoint_left.mpr ?_, Finset.disjoint_left.mpr ?_,
    Finset.disjoint_left.mpr ?_, ?_⟩
  · intro name hload hrel
    obtain ⟨-, hnone⟩ := (mem_load_iff cloud locl name).mp hload
    obtain ⟨c, l, hc, -, -⟩ := (mem_reload_iff cloud locl name).mp hrel
    rw [hnone] at hc
    exact Option.noConfusion hc
  · intro name hload hdel
    obtain ⟨-, hnone⟩ := (mem_load_iff cloud locl name).mp hload
    obtain ⟨hsome, -⟩ := (mem_delete_iff cloud locl name).mp hdel
    rw [hnone] at hsome
    exact Bool.noConfusion hsome
  · intro name hrel hdel
    obtain ⟨c, l, -, hl, -⟩ := (mem_reload_iff cloud locl name).mp hrel
    obtain ⟨-, hnone⟩ := (mem_delete_iff cloud locl name).mp hdel
    rw [hnone] at hl
    exact Option.noConfusion hl
  · intro name hmem
    rw [Finset.mem_union, Finset.mem_union] at hmem
    rw [Finset.mem_union, mem_namesS, mem_namesS]
    rcases hmem with (hload | hdel) | hrel
    · obtain ⟨hsome, -⟩ := (mem_load_iff cloud locl name).mp hload
      exact Or.inr hsome
    · obtain ⟨hsome, -⟩ := (mem_delete_iff cloud locl name).mp hdel
      exact Or.inl hsome
    · obtain ⟨c, l, hc, -, -⟩ := (mem_reload_iff cloud locl name).mp hrel
      exact Or.inl (by simp [hc])

/-! ## Remote codec lemmas -/

theorem lookupS_codec_foldl (l : List YadiskAPI.XmlEntry) (acc : Snapshot)
    (name : String) :
    lookupS (l.foldl
      (fun result tag =>
        match tag.getcontentlength with
        | some size => insertS result tag.displayname ⟨size, tag.getlastmodified⟩
        | none => result) acc) name =
      match (l.filter (fun tag => tag.getcontentlength.isSome)).reverse.find?
          (fun tag => tag.displayname == name) with
      | some tag => some ⟨tag.getcontentlength.getD 0, tag.getlastmodified⟩
      | none => lookupS acc name := by
  induction l generalizing acc with
  | nil => simp
  | cons e tl ih =>
    rw [List.foldl_cons, List.filter_cons]
    cases hcl : e.getcontentlength with
    | none =>
      simp only [hcl, Option.isSome_none, Bool.false_eq_true, if_false]
      exact ih acc
    | some size =>
      simp only [hcl, Option.isSome_some, if_true]
      rw [ih, List.reverse_cons, List.find?_append]
      cases hfind : (List.find? (fun tag => tag.displayname == name)
          (List.filter (fun tag => tag.getcontentlength.isSome) tl).reverse) with
      | some tag => simp [hfind]
      | none =>
        simp only [hfind, Option.none_or]
        by_cases hdn : e.displayname = name
        · simp [List.find?, beq_iff_eq, hdn, lookupS_insertS, hcl]
        · have hb : (e.displayname == name) = false := by simp [beq_iff_eq, hdn]
          have hne : name ≠ e.displayname := fun hh => hdn hh.symm
          simp [List.find?, hb, lookupS_insertS, hne]

theorem codec_warns_foldl (l : List YadiskAPI.XmlEntry) (acc : List String) :
    l.foldl
      (fun warns tag =>
        match tag.getcontentlength with
        | some _ => warns
        | none => warns ++ [tag.displayname]) acc
    = acc ++ (l.filter (fun tag => tag.getcontentlength.isNone)).map
        (fun tag => tag.displayname) := by
  induction l generalizing acc with
  | nil => simp
  | cons e tl ih =>
    rw [List.foldl_cons, List.filter_cons]
    cases hcl : e.getcontentlength with
    | none => simp [hcl, ih]
    | some v => simp [hcl, ih]

theorem codec_fold_all_folders (l : List YadiskAPI.XmlEntry) (acc : Snapshot)
    (h : ∀ e ∈ l, e.getcontentlength = none) :
    l.foldl
      (fun result tag =>
        match tag.getcontentlength with
        | some size => insertS result tag.displayname ⟨size, tag.getlastmodified⟩
        | none => result) acc = acc := by
  induction l generalizing acc with
  | nil => rfl
  | cons e tl ih =>
    rw [List.foldl_cons, h e (List.mem_cons_self e tl)]
    exact ih acc (fun x hx => h x (List.mem_cons_of_mem e hx))

/-- C5: on a well-formed multi-status response, `_make_info_dict` skips the
first entry unconditionally (by position: any first entry gives the same
result), records each later entry that has a content length under its
display name with that integer size and the timestamp parsed from the
fixed wire format, resolves duplicate display names by keeping the last
such entry, and skips entries without a content length, emitting one
folder warning per skipped entry and recording nothing for it. -/
theorem make_info_dict_char :
    (∀ e0 e0' rest, YadiskAPI._make_info_dict (some (e0 :: rest)) =
        YadiskAPI._make_info_dict (some (e0' :: rest)))
  ∧ (∀ entries name,
      (YadiskAPI._make_info_dict (some entries)).bind (fun s => lookupS s name) =
        (((entries.drop 1).filter
            (fun tag => tag.getcontentlength.isSome)).reverse.find?
          (fun tag => tag.displayname == name)).map
          (fun tag =>
            (⟨tag.getcontentlength.getD 0, tag.getlastmodified⟩ : FileMeta)))
  ∧ (∀ entries,
      YadiskAPI._make_info_dict_warns (some entries) =
        ((entries.drop 1).filter (fun tag => tag.getcontentlength.isNone)).map
          (fun tag => tag.displayname)) := by
  refine ⟨fun e0 e0' rest => rfl, fun entries name => ?_, fun entries => ?_⟩
  · show lookupS _ name = _
    rw [lookupS_codec_foldl]
    cases (List.find? (fun tag => tag.displayname == name)
        (List.filter (fun tag => tag.getcontentlength.isSome)
          (entries.drop 1)).reverse) with
    | some tag => rfl
    | none => rfl
  · show (entries.drop 1).foldl _ [] = _
    rw [codec_warns_foldl]
    simp

/-- C9: a response body that parses but carries at most the collection's
own entry, or only folder entries after the fixed first-entry skip, yields
the empty snapshot — a `some` result, distinct from the `none` returned
for an unparsable body. -/
theorem empty_listing_yields_empty_snapshot :
    YadiskAPI._make_info_dict none = none
  ∧ (∀ entries, (∀ e ∈ entries.drop 1, e.getcontentlength = none) →
      YadiskAPI._make_info_dict (some entries) = some ([] : Snapshot)
      ∧ YadiskAPI._make_info_dict (some entries) ≠
          YadiskAPI._make_info_dict none) := by
  refine ⟨rfl, fun entries h => ?_⟩
  have : YadiskAPI._make_info_dict (some entries) = some ([] : Snapshot) := by
    show some ((entries.drop 1).foldl _ []) = some ([] : Snapshot)
    rw [codec_fold_all_folders (entries.drop 1) [] h]
  exact ⟨this, by rw [this]; exact fun hh => Option.noConfusion hh⟩

/-- Witness for C9: a listing of the collection entry followed by two
folders parses to the empty snapshot and is distinct from a parse
failure. -/
theorem empty_listing_yields_empty_snapshot_witness :
    YadiskAPI._make_info_dict
        (some [⟨"disk", none, 0⟩, ⟨"photos", none, 5⟩, ⟨"docs", none, 7⟩])
      = some ([] : Snapshot)
    ∧ YadiskAPI._make_info_dict
        (some [⟨"disk", none, 0⟩, ⟨"photos", none, 5⟩, ⟨"docs", none, 7⟩])
      ≠ YadiskAPI._make_info_dict none :=
  empty_listing_yields_empty_snapshot.2
    [⟨"disk", none, 0⟩, ⟨"photos", none, 5⟩, ⟨"docs", none, 7⟩] (by decide)

/-- C3 (code bug): an empty or unparsable list body does yield no snapshot
(`_make_info_dict` returns `None`), but the orchestrator then passes that
`None` straight into `compare_cloud_local`, whose `set(cloud.keys())`
raises `AttributeError`; nothing in `infinite_sync` catches it, so the
cycle aborts with an uncaught exception instead of completing. -/
theorem unparsable_body_aborts_cycle :
    YadiskAPI._make_info_dict none = none
  ∧ Main.sync_cycle none (Utils.FsNode.dir []) =
      Except.error PyExc.attributeError :=
  ⟨rfl, rfl⟩

/-! ## Local scanner lemmas -/

/-- The metadata `utils.get_info` records for a regular file node
(placeholder value on directories, which are never recorded). -/
def Utils.scanMeta : Utils.FsNode → FileMeta
  | .file size mtimeMicros => ⟨size, Utils.truncMicros mtimeMicros⟩
  | .dir _ => ⟨0, 0⟩

theorem lookupS_scan_foldl (l : List (String × Utils.FsNode)) (acc : Snapshot)
    (name : String) :
    lookupS (l.foldl
      (fun result p =>
        match p.2 with
        | .dir _ => result
        | .file size mtimeMicros =>
            insertS result p.1 ⟨size, Utils.truncMicros mtimeMicros⟩) acc) name =
      match (l.filter (fun p => !p.2.isDir)).reverse.find?
          (fun p => p.1 == name) with
      | some p => some (Utils.scanMeta p.2)
      | none => lookupS acc name := by
  induction l generalizing acc with
  | nil => simp
  | cons e tl ih =>
    obtain ⟨nm, node⟩ := e
    rw [List.foldl_cons, List.filter_cons]
    cases node with
    | dir sub =>
      have hcond :
          (!((nm, Utils.FsNode.dir sub) : String × Utils.FsNode).2.isDir) = false :=
        rfl
      rw [hcond]
      simp only [Bool.false_eq_true, if_false]
      exact ih acc
    | file size mtimeMicros =>
      have hcond :
          (!((nm, Utils.FsNode.file size mtimeMicros) :
              String × Utils.FsNode).2.isDir) = true :=
        rfl
      rw [hcond, if_pos rfl, ih, List.reverse_cons, List.find?_append]
      cases hfind : (List.find? (fun p => p.1 == name)
          (List.filter (fun p => !p.2.isDir) tl).reverse) with
      | some p => simp
      | none =>
        simp only [Option.none_or]
        by_cases hdn : nm = name
        · simp [List.find?, beq_iff_eq, hdn, lookupS_insertS, Utils.scanMeta]
        · have hb : ((nm, Utils.FsNode.file size mtimeMicros).1 == name) = false := by
            simp [beq_iff_eq, hdn]
          have hne : name ≠ nm := fun hh => hdn hh.symm
          simp [List.find?, hb, lookupS_insertS, hne]

theorem scan_warns_foldl (l : List (String × Utils.FsNode)) (acc : List String) :
    l.foldl
      (fun warns p =>
        match p.2 with
        | .dir _ => warns ++ [p.1]
        | .file _ _ => warns) acc
    = acc ++ (l.filter (fun p => p.2.isDir)).map Prod.fst := by
  induction l generalizing acc with
  | nil => simp
  | cons e tl ih =>
    obtain ⟨nm, node⟩ := e
    rw [List.foldl_cons, List.filter_cons]
    cases node with
    | dir sub =>
      have hcond :
          (((nm, Utils.FsNode.dir sub) : String × Utils.FsNode).2.isDir) = true :=
        rfl
      rw [hcond, if_pos rfl, ih]
      simp
    | file size mt =>
      have hcond :
          (((nm, Utils.FsNode.file size mt) : String × Utils.FsNode).2.isDir) = false :=
        rfl
      rw [hcond]
      simp only [Bool.false_eq_true, if_false]
      exact ih acc

theorem eq_of_nodup_keys {α β : Type} {l : List (α × β)}
    (h : (l.map Prod.fst).Nodup) {p q : α × β}
    (hp : p ∈ l) (hq : q ∈ l) (hk : p.1 = q.1) : p = q := by
  induction l with
  | nil => cases hp
  | cons x tl ih =>
    have hx : x.1 ∉ tl.map Prod.fst := (List.nodup_cons.mp h).1
    rcases List.mem_cons.mp hp with rfl | hp'
    · rcases List.mem_cons.mp hq with rfl | hq'
      · rfl
      · exact absurd (hk ▸ List.mem_map_of_mem Prod.fst hq') hx
    · rcases List.mem_cons.mp hq with rfl | hq'
      · exact absurd (hk ▸ List.mem_map_of_mem Prod.fst hp') hx
      · exact ih (List.nodup_cons.mp h).2 hp' hq'

/-- C8: `get_info` fails with `NotADirectoryError` on a non-directory
path; on a directory it returns a snapshot with an entry for each regular
file — its byte size and its UTC modification time truncated to whole
seconds — and no entry for any sub-directory, each of which produces one
warning. -/
theorem get_info_char :
    (∀ size mtimeMicros, Utils.get_info (.file size mtimeMicros) =
        Except.error PyExc.notADirectoryError)
  ∧ (∀ entries, ((entries.map Prod.fst).Nodup) →
      ∃ snap, Utils.get_info (.dir entries) = .ok snap
        ∧ (∀ name m, lookupS snap name = some m ↔
            ∃ size mt, (name, Utils.FsNode.file size mt) ∈ entries ∧
              m = ⟨size, Utils.truncMicros mt⟩)
        ∧ Utils.get_info_warns (.dir entries) =
            (entries.filter (fun p => p.2.isDir)).map Prod.fst) := by
  refine ⟨fun _ _ => rfl, fun entries hnd => ⟨_, rfl, ?_, ?_⟩⟩
  · intro name m
    have hchar := lookupS_scan_foldl entries [] name
    constructor
    · intro hsome
      rw [hchar] at hsome
      cases hfind : (List.find? (fun p => p.1 == name)
          (List.filter (fun p => !p.2.isDir) entries).reverse) with
      | none => rw [hfind] at hsome; exact absurd hsome (by simp [lookupS])
      | some p =>
        rw [hfind] at hsome
        have hm : Utils.scanMeta p.2 = m := Option.some.inj hsome
        have hpmem : p ∈ (List.filter (fun p => !p.2.isDir) entries).reverse :=
          List.mem_of_find?_eq_some hfind
        rw [List.mem_reverse, List.mem_filter] at hpmem
        obtain ⟨hpent, hpfil⟩ := hpmem
        have hpk : p.1 = name := by
          have h := List.find?_some hfind
          simpa using h
        cases hp2 : p.2 with
        | dir sub =>
          rw [hp2] at hpfil
          exact absurd hpfil (by simp [Utils.FsNode.isDir])
        | file size mt =>
          refine ⟨size, mt, ?_, ?_⟩
          · have hpeq : p = (name, Utils.FsNode.file size mt) := by
              obtain ⟨a, b⟩ := p
              simp only at hpk hp2
              rw [hpk, hp2]
            exact hpeq ▸ hpent
          · rw [hp2] at hm
            exact hm.symm
    · rintro ⟨size, mt, hmem, hm⟩
      rw [hchar]
      have hqfil : (name, Utils.FsNode.file size mt) ∈
          (List.filter (fun p => !p.2.isDir) entries).reverse := by
        rw [List.mem_reverse, List.mem_filter]
        exact ⟨hmem, rfl⟩
      have hsome : (List.find? (fun p => p.1 == name)
          (List.filter (fun p => !p.2.isDir) entries).reverse).isSome := by
        rw [List.find?_isSome]
        exact ⟨(name, Utils.FsNode.file size mt), hqfil, by simp⟩
      cases hfind : (List.find? (fun p => p.1 == name)
          (List.filter (fun p => !p.2.isDir) entries).reverse) with
      | none => rw [hfind] at hsome; exact absurd hsome (by simp)
      | some p =>
        have hpk : p.1 = name := by
          have h := List.find?_some hfind
          simpa using h
        have hpmem : p ∈ (List.filter (fun p => !p.2.isDir) entries).reverse :=
          List.mem_of_find?_eq_some hfind
        rw [List.mem_reverse, List.mem_filter] at hpmem
        have hpeq : p = (name, Utils.FsNode.file size mt) :=
          eq_of_nodup_keys hnd hpmem.1 hmem (by rw [hpk])
        rw [hpeq, hm]
        rfl
  · show entries.foldl _ [] = _
    rw [scan_warns_foldl]
    simp

/-- Witness for C8: scanning a directory holding one regular file
(`notes.txt`, 100 bytes, mtime 2 500 000 µs → 2 s) and one sub-directory
yields exactly the regular file's entry, and one warning for the
sub-directory. -/
theorem get_info_char_witness :
    ∃ snap, Utils.get_info
        (.dir [("notes.txt", .file 100 2500000), ("nested", .dir [])]) = .ok snap
      ∧ (∀ name m, lookupS snap name = some m ↔
          ∃ size mt, (name, Utils.FsNode.file size mt) ∈
              [("notes.txt", Utils.FsNode.file 100 2500000),
               ("nested", Utils.FsNode.dir [])] ∧
            m = ⟨size, Utils.truncMicros mt⟩)
      ∧ Utils.get_info_warns
          (.dir [("notes.txt", .file 100 2500000), ("nested", .dir [])]) =
          ([("notes.txt", Utils.FsNode.file 100 2500000),
            ("nested", Utils.FsNode.dir [])].filter
              (fun p => p.2.isDir)).map Prod.fst :=
  get_info_char.2
    [("notes.txt", .file 100 2500000), ("nested", .dir [])] (by decide)

/-! ## Request primitive and process exit -/

theorem request_pass {s : Nat} (h401 : s ≠ 401) (h404 : s ≠ 404) :
    YadiskAPI._request s = .resp s := by
  unfold YadiskAPI._request
  split_ifs with h1
  · rfl
  · rfl

theorem request_resp_eq {s s' : Nat}
    (h : YadiskAPI._request s = .resp s') : s' = s := by
  by_cases h401 : s = 401
  · subst h401
    have he : YadiskAPI._request 401 = .exited 1 := by decide
    rw [he] at h
    exact YadiskAPI.ReqResult.noConfusion h
  by_cases h404 : s = 404
  · subst h404
    have he : YadiskAPI._request 404 = .exited 1 := by decide
    rw [he] at h
    exact YadiskAPI.ReqResult.noConfusion h
  rw [request_pass h401 h404] at h
  exact (YadiskAPI.ReqResult.resp.inj h).symm

/-- Counterexample to C2 as stated: a 404 answer to a remote call makes
`_request` call `sys.exit(1)` (the 404 branch sets its resource-missing
message and then falls through to the critical log and exit, only the
catch-all branch returns), so a failure that is neither a configuration
failure nor a 401 terminates the process. -/
theorem request_404_exits :
    YadiskAPI._request 404 = .exited 1 ∧ (404 : Nat) ≠ 401 :=
  ⟨by decide, by decide⟩

/-- C2 (amended): the process terminates with a non-zero status, after a
critical log, exactly when configuration loading or validation fails or a
remote call is answered 401 — or 404, which also exits (with its own
resource-missing message) instead of letting the cycle continue; every
other HTTP status is returned to the caller, so the cycle continues. -/
theorem process_exit_char :
    (∀ status : Nat, (∃ code, YadiskAPI._request status = .exited code) ↔
        (status = 401 ∨ status = 404))
  ∧ (∀ status : Nat, status ≠ 401 → status ≠ 404 →
        YadiskAPI._request status = .resp status)
  ∧ (∀ cfgFile : Option RawConfig,
        (∃ code, initOutcome cfgFile = .error code) ↔
          (cfgFile = none ∨ ∃ c, cfgFile = some c ∧
            ∃ e, raise_for_config c = .error e)) := by
  refine ⟨?_, fun status h401 h404 => request_pass h401 h404, ?_⟩
  · intro status
    constructor
    · rintro ⟨code, hcode⟩
      by_cases h401 : status = 401
      · exact Or.inl h401
      by_cases h404 : status = 404
      · exact Or.inr h404
      rw [request_pass h401 h404] at hcode
      exact YadiskAPI.ReqResult.noConfusion hcode
    · rintro (rfl | rfl)
      · exact ⟨1, by decide⟩
      · exact ⟨1, by decide⟩
  · intro cfgFile
    cases cfgFile with
    | none => simp [initOutcome]
    | some c =>
      have hunf : initOutcome (some c) =
          (match raise_for_config c with
           | .error _ => .error 1
           | .ok _ => .ok c) := rfl
      cases hrc : raise_for_config c with
      | error e =>
        constructor
        · intro _
          exact Or.inr ⟨c, rfl, e, hrc⟩
        · intro _
          exact ⟨1, by rw [hunf, hrc]⟩
      | ok u =>
        constructor
        · rintro ⟨code, hcode⟩
          rw [hunf, hrc] at hcode
          exact Except.noConfusion hcode
        · rintro (hnone | ⟨c', hc', e, he⟩)
          · exact Option.noConfusion hnone
          · cases Option.some.inj hc'
            rw [hrc] at he
            exact Except.noConfusion he

/-- Witness for C2 (amended): a 500 answer is returned to the caller
(no exit), and a configuration missing its `token` key makes startup
exit with status 1. -/
theorem process_exit_char_witness :
    YadiskAPI._request 500 = .resp 500
  ∧ (∃ code, initOutcome (some ⟨true, some "/d", some "5", some "/l",
        none, some ""⟩) = .error code) :=
  ⟨process_exit_char.2.1 500 (by decide) (by decide),
   (process_exit_char.2.2 (some ⟨true, some "/d", some "5", some "/l",
       none, some ""⟩)).mpr
     (Or.inr ⟨⟨true, some "/d", some "5", some "/l", none, some ""⟩,
       rfl, "token", rfl⟩)⟩

/-! ## Reload: delete-then-upload -/

theorem lookupS_eraseS (s : Snapshot) (k : String) :
    lookupS (YadiskAPI.eraseS s k) k = none := by
  unfold YadiskAPI.eraseS
  rw [lookupS_filter_bne]
  simp

theorem reload_204 (remote : Snapshot) (filename : String) (m : FileMeta)
    (putStatus : Nat) :
    YadiskAPI.reload remote filename m 204 putStatus =
      match YadiskAPI._request putStatus with
      | .exited _ => .exited (YadiskAPI.eraseS remote filename)
          [.del filename, .put filename]
      | .resp s2 => .returned
          (if s2 = 201 then insertS (YadiskAPI.eraseS remote filename) filename m
           else YadiskAPI.eraseS remote filename)
          [.del filename, .put filename] := by
  unfold YadiskAPI.reload
  have h204 : YadiskAPI._request 204 = .resp 204 := by decide
  rw [h204]
  cases YadiskAPI._request putStatus with
  | exited code => rfl
  | resp s2 => rfl

/-- C7: a `reload` whose delete succeeds (204) but whose upload is not
answered 201 issues exactly a DELETE followed by a PUT — no atomic
replace and no compensating request — and leaves the file absent from
the remote side. -/
theorem reload_nonatomic (remote : Snapshot) (filename : String) (m : FileMeta)
    (putStatus : Nat) (hput : putStatus ≠ 201) :
    lookupS (YadiskAPI.reload remote filename m 204 putStatus).remote filename
      = none
  ∧ (YadiskAPI.reload remote filename m 204 putStatus).reqs =
      [YadiskAPI.Req.del filename, YadiskAPI.Req.put filename] := by
  rw [reload_204]
  cases hreq : YadiskAPI._request putStatus with
  | exited code => exact ⟨lookupS_eraseS remote filename, rfl⟩
  | resp s2 =>
    have hs2 : s2 = putStatus := request_resp_eq hreq
    have hne : ¬ s2 = 201 := fun h => hput (hs2.symm.trans h)
    simp only [YadiskAPI.ExecResult.remote, YadiskAPI.ExecResult.reqs, hne,
      if_false]
    exact ⟨lookupS_eraseS remote filename, trivial⟩

/-- Witness for C7: remote holds `a.txt`; its reload gets a 204 delete
and a 500 upload; afterwards `a.txt` is gone remotely and exactly
DELETE-then-PUT was issued. -/
theorem reload_nonatomic_witness :
    lookupS (YadiskAPI.reload [("a.txt", ⟨1, 0⟩)] "a.txt" ⟨2, 5⟩ 204 500).remote
        "a.txt" = none
  ∧ (YadiskAPI.reload [("a.txt", ⟨1, 0⟩)] "a.txt" ⟨2, 5⟩ 204 500).reqs =
      [YadiskAPI.Req.del "a.txt", YadiskAPI.Req.put "a.txt"] :=
  reload_nonatomic [("a.txt", ⟨1, 0⟩)] "a.txt" ⟨2, 5⟩ 500 (by decide)

/-- C10: when the delete answer `reload` receives is anything but 204,
`reload` returns immediately after the error log: no PUT is issued and
the remote state is untouched.  (401 and 404 never reach this check:
`_request` exits the process before `_delete` returns.) -/
theorem reload_early_return (remote : Snapshot) (filename : String)
    (m : FileMeta) (delStatus putStatus : Nat) (h204 : delStatus ≠ 204)
    (h401 : delStatus ≠ 401) (h404 : delStatus ≠ 404) :
    YadiskAPI.reload remote filename m delStatus putStatus =
      .returned remote [YadiskAPI.Req.del filename] := by
  unfold YadiskAPI.reload
  rw [request_pass h401 h404]
  show (if delStatus ≠ 204 then _ else _) = _
  rw [if_pos h204, if_neg h204]

/-- Witness for C10: a 500 delete answer makes `reload` return with only
the DELETE issued and the remote snapshot unchanged. -/
theorem reload_early_return_witness :
    YadiskAPI.reload [("a.txt", ⟨1, 0⟩)] "a.txt" ⟨2, 5⟩ 500 201 =
      .returned [("a.txt", ⟨1, 0⟩)] [YadiskAPI.Req.del "a.txt"] :=
  reload_early_return [("a.txt", ⟨1, 0⟩)] "a.txt" ⟨2, 5⟩ 500 201
    (by decide) (by decide) (by decide)

/-! ## Orchestration order -/

theorem foldl_append_singletons {α β : Type} (g : α → β) (l : List α)
    (acc : List β) :
    l.foldl (fun acc' f => acc' ++ [g f]) acc = acc ++ l.map g := by
  induction l generalizing acc with
  | nil => simp
  | cons x tl ih => simp [ih]

theorem planTrace_eq (todo : Utils.SyncPlan) :
    Main.planTrace todo =
      (todo.delete.sort (· ≤ ·)).map Main.Action.delete
      ++ (todo.load.sort (· ≤ ·)).map Main.Action.load
      ++ (todo.reload.sort (· ≤ ·)).map Main.Action.reload := by
  unfold Main.planTrace
  rw [foldl_append_singletons, foldl_append_singletons, foldl_append_singletons]
  simp

theorem pairwise_le_map_of_const {α : Type} (l : List α) (g : α → Nat) (c : Nat)
    (hg : ∀ x, g x = c) : List.Pairwise (· ≤ ·) (l.map g) := by
  induction l with
  | nil => exact List.Pairwise.nil
  | cons x tl ih =>
    rw [List.map_cons]
    refine List.Pairwise.cons ?_ ih
    intro b hb
    rcases List.mem_map.mp hb with ⟨a, -, rfl⟩
    rw [hg x, hg a]

theorem eq_of_mem_map_const {α : Type} {l : List α} {g : α → Nat} {c : Nat}
    (hg : ∀ x, g x = c) {a : Nat} (ha : a ∈ l.map g) : a = c := by
  rcases List.mem_map.mp ha with ⟨x, -, rfl⟩
  exact hg x

/-- C6: once both snapshots are obtained and the plan computed, the cycle
body executes all `delete` actions first, then all `load` actions, then
all `reload` actions — the phase sequence of the issued trace is
monotone — and the actions of each kind are exactly the corresponding
set of the computed plan. -/
theorem sync_cycle_order (cloudParsed : Option (List YadiskAPI.XmlEntry))
    (localFs : Utils.FsNode) (cloudSnap locl : Snapshot)
    (hc : YadiskAPI._make_info_dict cloudParsed = some cloudSnap)
    (hl : Utils.get_info localFs = .ok locl) :
    ∃ t, Main.sync_cycle cloudParsed localFs = .ok t
      ∧ (t.map Main.Action.phase).Sorted (· ≤ ·)
      ∧ (∀ f, Main.Action.delete f ∈ t ↔
          f ∈ (Utils.compare_cloud_local cloudSnap locl).delete)
      ∧ (∀ f, Main.Action.load f ∈ t ↔
          f ∈ (Utils.compare_cloud_local cloudSnap locl).load)
      ∧ (∀ f, Main.Action.reload f ∈ t ↔
          f ∈ (Utils.compare_cloud_local cloudSnap locl).reload) := by
  refine ⟨Main.planTrace (Utils.compare_cloud_local cloudSnap locl),
    ?_, ?_, ?_, ?_, ?_⟩
  · unfold Main.sync_cycle
    rw [hl, hc]
    rfl
  · rw [planTrace_eq, List.map_append, List.map_append, List.map_map,
      List.map_map, List.map_map]
    exact List.pairwise_append.mpr
      ⟨List.pairwise_append.mpr
        ⟨pairwise_le_map_of_const _ _ 0 (fun x => rfl),
         pairwise_le_map_of_const _ _ 1 (fun x => rfl),
         fun a ha b hb => by
           rw [eq_of_mem_map_const (fun x => rfl) ha,
             eq_of_mem_map_const (fun x => rfl) hb]
           exact Nat.zero_le 1⟩,
       pairwise_le_map_of_const _ _ 2 (fun x => rfl),
       fun a ha b hb => by
         rw [eq_of_mem_map_const (fun x => rfl) hb]
         rcases List.mem_append.mp ha with h | h
         · rw [eq_of_mem_map_const (fun x => rfl) h]
           exact Nat.zero_le 2
         · rw [eq_of_mem_map_const (fun x => rfl) h]
           exact Nat.le_succ 1⟩
  · intro f
    rw [planTrace_eq]
    simp only [List.mem_append, List.mem_map]
    constructor
    · rintro ((⟨x, hx, hinj⟩ | ⟨x, hx, hinj⟩) | ⟨x, hx, hinj⟩)
      · obtain rfl := Main.Action.delete.inj hinj
        exact (Finset.mem_sort _).mp hx
      · exact Main.Action.noConfusion hinj
      · exact Main.Action.noConfusion hinj
    · intro hf
      exact Or.inl (Or.inl ⟨f, (Finset.mem_sort _).mpr hf, rfl⟩)
  · intro f
    rw [planTrace_eq]
    simp only [List.mem_append, List.mem_map]
    constructor
    · rintro ((⟨x, hx, hinj⟩ | ⟨x, hx, hinj⟩) | ⟨x, hx, hinj⟩)
      · exact Main.Action.noConfusion hinj
      · obtain rfl := Main.Action.load.inj hinj
        exact (Finset.mem_sort _).mp hx
      · exact Main.Action.noConfusion hinj
    · intro hf
      exact Or.inl (Or.inr ⟨f, (Finset.mem_sort _).mpr hf, rfl⟩)
  · intro f
    rw [planTrace_eq]
    simp only [List.mem_append, List.mem_map]
    constructor
    · rintro ((⟨x, hx, hinj⟩ | ⟨x, hx, hinj⟩) | ⟨x, hx, hinj⟩)
      · exact Main.Action.noConfusion hinj
      · exact Main.Action.noConfusion hinj
      · obtain rfl := Main.Action.reload.inj hinj
        exact (Finset.mem_sort _).mp hx
    · intro hf
      exact Or.inr ⟨f, (Finset.mem_sort _).mpr hf, rfl⟩

/-- Witness for C6: the remote listing (collection entry plus `a.txt`)
parses to a one-file snapshot, the local directory holds `b.txt`; the
cycle succeeds with a phase-monotone trace whose delete actions are
exactly `{a.txt}`, load actions exactly `{b.txt}`, reloads empty. -/
theorem sync_cycle_order_witness :
    ∃ t, Main.sync_cycle
        (some [⟨"disk", none, 0⟩, ⟨"a.txt", some 1, 0⟩])
        (.dir [("b.txt", .file 2 0)]) = .ok t
      ∧ (t.map Main.Action.phase).Sorted (· ≤ ·)
      ∧ (∀ f, Main.Action.delete f ∈ t ↔
          f ∈ (Utils.compare_cloud_local [("a.txt", ⟨1, 0⟩)]
            [("b.txt", ⟨2, 0⟩)]).delete)
      ∧ (∀ f, Main.Action.load f ∈ t ↔
          f ∈ (Utils.compare_cloud_local [("a.txt", ⟨1, 0⟩)]
            [("b.txt", ⟨2, 0⟩)]).load)
      ∧ (∀ f, Main.Action.reload f ∈ t ↔
          f ∈ (Utils.compare_cloud_local [("a.txt", ⟨1, 0⟩)]
            [("b.txt", ⟨2, 0⟩)]).reload) :=
  sync_cycle_order (some [⟨"disk", none, 0⟩, ⟨"a.txt", some 1, 0⟩])
    (.dir [("b.txt", .file 2 0)]) [("a.txt", ⟨1, 0⟩)] [("b.txt", ⟨2, 0⟩)]
    rfl rfl
